import Mathlib

/-!
Verification of the scoped-lifetime bridge and reference/identity model of the
mlua repository (`src/scope.rs`, `src/types.rs`).

The Rust code is shallowly embedded: machine integers `c_int` become `Int`,
`TypeId` and payloads become `Nat`, shared heap cells (`Arc`, `Rc`) become
identity tokens into an explicit store, and panics become `none` / dedicated
outcome constructors.  Each definition is annotated with the source lines it
embeds.
-/

namespace Mlua

/-- Relevant variants of `mlua::Error`. -/
inductive Error where
  | RecursiveMutCallback
deriving DecidableEq, Repr

/-! ## Registry keys (`src/types.rs` lines 208-276)

A `RegistryKey` holds a slot id (`registry_id: AtomicI32`) and a shared
pending-removal list (`unref_list: Arc<Mutex<Option<Vec<c_int>>>>`).  The
`Arc` is modelled by an identity token (`Nat`) into an explicit store mapping
each token to the mutex content `Option (List Int)` (`none` models the list
having been taken away at engine teardown). -/

/-- `ffi::LUA_REFNIL`: the registry id of the preallocated nil slot. -/
def LUA_REFNIL : Int := -1

structure RegistryKey where
  registryId : Int
  /-- identity token of the shared `Arc<Mutex<Option<Vec<c_int>>>>`. -/
  unrefList : Nat
deriving DecidableEq, Repr

/-- The store of all shared unref lists, keyed by `Arc` identity. -/
def UnrefStore := Nat → Option (List Int)

def UnrefStore.set (s : UnrefStore) (i : Nat) (v : Option (List Int)) : UnrefStore :=
  fun j => if j = i then v else s j

/-- `impl Drop for RegistryKey` (types.rs lines 233-244): ids greater than
`LUA_REFNIL` are pushed onto the shared pending list, provided the list is
still present; the nil slot is not collected, and nothing else happens. -/
def registryKeyDrop (store : UnrefStore) (k : RegistryKey) : UnrefStore :=
  if LUA_REFNIL < k.registryId then
    match store k.unrefList with
    | some list => store.set k.unrefList (some (list ++ [k.registryId]))
    | none => store
  else store

/-- `RegistryKey::take` (types.rs lines 267-276): reads the id, then
`ptr::read` + `mem::forget` destroy the key without ever running the drop
path, so no shared state changes. -/
def RegistryKey.take (store : UnrefStore) (k : RegistryKey) : Int × UnrefStore :=
  (k.registryId, store)

/-- Modelled from the spec: the sweep operation (`Lua::expire_registry_values`)
is not among the provided sources; the spec says the engine owner's sweep
"drains the pending list and frees those slots".  It returns the freed ids and
leaves the drained (empty) list behind. -/
def registrySweep (store : UnrefStore) (arc : Nat) : List Int × UnrefStore :=
  match store arc with
  | some list => (list, store.set arc (some []))
  | none => ([], store)

/-- `impl PartialEq for RegistryKey` (types.rs lines 225-229): ids must match
and `Arc::ptr_eq` must hold on the two pending lists. -/
def RegistryKey.eq (a b : RegistryKey) : Bool :=
  a.registryId == b.registryId && a.unrefList == b.unrefList

/-! ## Value references (`src/types.rs` lines 278-332)

A `ValueRef` holds a weak engine handle, a slot index in the engine's
auxiliary reference area (the "ref thread"), and a drop flag.  Engines are a
map from engine id to the state of their reference area (`none` once the
engine has been torn down, so `WeakLua::try_lock` fails). -/

structure WeakLua where
  engineId : Nat
deriving DecidableEq, Repr

structure ValueRef where
  lua : WeakLua
  index : Int
  drop : Bool
deriving DecidableEq, Repr

/-- The reference area of one live engine: which slots are occupied and the
identity of the value each slot holds. -/
structure RefThread where
  occupied : Int → Bool
  value : Int → Nat

/-- All engines, by id; `none` models a torn-down engine. -/
def Engines := Nat → Option RefThread

/-- Modelled from the spec: `RawLua::drop_ref` is not among the provided
sources; per the spec a Value Reference's slot in the reference area is
"freed on drop".  Marks the slot unoccupied. -/
def dropRef (t : RefThread) (index : Int) : RefThread :=
  { t with occupied := fun j => if j = index then false else t.occupied j }

/-- `impl Drop for ValueRef` (types.rs lines 313-321): only if the drop flag
is set, and only if the weak engine handle can still be locked, is the slot
freed; otherwise the drop is a no-op. -/
def valueRefDrop (es : Engines) (v : ValueRef) : Engines :=
  if v.drop then
    match es v.lua.engineId with
    | some t => fun j => if j = v.lua.engineId then some (dropRef t v.index) else es j
    | none => es
  else es

/-- Modelled from the spec: `ffi::lua_rawequal` on the reference area compares
the values held in two slots (raw equality, no metamethods). -/
def rawequal (t : RefThread) (i j : Int) : Bool :=
  t.value i == t.value j

/-- `impl PartialEq for ValueRef` (types.rs lines 323-332): first asserts that
both references come from the same engine instance — `none` models that
assertion panicking — then locks the engine and compares the two slots with
`lua_rawequal`. -/
def ValueRef.eq (es : Engines) (a b : ValueRef) : Option Bool :=
  if a.lua = b.lua then
    (es a.lua.engineId).map fun t => rawequal t a.index b.index
  else none

/-! ## App data container (`src/types.rs` lines 334-483)

`AppData` is a type-keyed map (`FxHashMap<TypeId, RefCell<Box<dyn Any>>>`)
with a global borrow counter (`borrow: Cell<usize>`).  `TypeId` and payloads
become `Nat`; `Box<dyn Any>` becomes a pair of the stored value's runtime type
id and its payload; each `RefCell`'s borrow flag is tracked per entry.
Panics become `none` / a `panicked` outcome. -/

/-- Borrow flag of one `RefCell` entry: `reading n` means `n ≥ 1` outstanding
`Ref` guards. -/
inductive CellFlag where
  | free
  | reading (n : Nat)
  | writing
deriving DecidableEq, Repr

/-- `RefCell::borrow` acquisition: fails (panics) iff a writer is active. -/
def CellFlag.acquireShared : CellFlag → Option CellFlag
  | .free => some (.reading 1)
  | .reading n => some (.reading (n + 1))
  | .writing => none

/-- `RefCell::borrow_mut` acquisition: fails (panics) unless unborrowed. -/
def CellFlag.acquireMut : CellFlag → Option CellFlag
  | .free => some .writing
  | .reading _ => none
  | .writing => none

/-- Dropping one `Ref` guard. -/
def CellFlag.releaseShared : CellFlag → CellFlag
  | .reading 1 => .free
  | .reading (n + 2) => .reading (n + 1)
  | f => f

/-- A `Box<dyn Any>`: the stored value's runtime type id plus its payload. -/
structure DynAny where
  tyId : Nat
  payload : Nat
deriving DecidableEq, Repr

/-- One `RefCell<Box<dyn Any>>` entry of the container. -/
structure Entry where
  cell : DynAny
  flag : CellFlag
deriving DecidableEq, Repr

structure AppData where
  container : List (Nat × Entry)
  /-- the `borrow: Cell<usize>` global borrow counter. -/
  borrowCount : Nat
deriving DecidableEq, Repr

def lookupEntry : List (Nat × Entry) → Nat → Option Entry
  | [], _ => none
  | (k, e) :: rest, T => if k = T then some e else lookupEntry rest T

def setEntry : List (Nat × Entry) → Nat → Entry → List (Nat × Entry)
  | [], k, e => [(k, e)]
  | (k', e') :: rest, k, e =>
    if k' = k then (k, e) :: rest else (k', e') :: setEntry rest k e

def removeEntry : List (Nat × Entry) → Nat → List (Nat × Entry)
  | [], _ => []
  | (k', e') :: rest, k =>
    if k' = k then rest else (k', e') :: removeEntry rest k

/-- `AppData::try_insert` (types.rs lines 352-360): with any borrow
outstanding the offered value is handed back as an error; otherwise the map
entry is replaced by a fresh cell holding the value and the previous value of
the same runtime type (if any) is returned. -/
def AppData.tryInsert (s : AppData) (T v : Nat) : Except Nat (Option Nat × AppData) :=
  if s.borrowCount ≠ 0 then .error v
  else
    let old := (lookupEntry s.container T).bind fun e =>
      if e.cell.tyId = T then some e.cell.payload else none
    .ok (old, { container := setEntry s.container T ⟨⟨T, v⟩, .free⟩,
                borrowCount := s.borrowCount })

/-- `AppData::insert` (types.rs lines 344-350): delegates to `try_insert` and
panics (`none`) on its error. -/
def AppData.insert (s : AppData) (T v : Nat) : Option (Option Nat × AppData) :=
  match s.tryInsert T v with
  | .ok r => some r
  | .error _ => none

/-- `AppData::remove` (types.rs lines 391-403): panics (`none`) with any
borrow outstanding; otherwise removes the entry (returning its value when the
runtime type matches). -/
def AppData.remove (s : AppData) (T : Nat) : Option (Option Nat × AppData) :=
  if s.borrowCount ≠ 0 then none
  else
    match lookupEntry s.container T with
    | none => some (none, s)
    | some e =>
      some (if e.cell.tyId = T then some e.cell.payload else none,
        { container := removeEntry s.container T, borrowCount := s.borrowCount })

/-- A live `AppDataRef` (`isMut = false`) or `AppDataRefMut` (`isMut = true`)
guard, remembering which entry it borrows. -/
structure Guard where
  tyId : Nat
  isMut : Bool
deriving DecidableEq, Repr

/-- Result of `AppData::borrow` / `AppData::borrow_mut`: the `RefCell` borrow
may panic, or the call returns `None` (leaving some state), or a guard. -/
inductive BorrowOutcome where
  | panicked
  | noneReturned (s : AppData)
  | success (g : Guard) (s : AppData)
deriving DecidableEq, Repr

/-- `AppData::borrow` (types.rs lines 362-373): missing entry returns `None`
untouched; otherwise the entry's `RefCell` is borrowed (panicking if a writer
is active), the global counter is incremented, and then `Ref::filter_map`
downcasts.  On downcast failure the `Ref` is dropped (entry flag restored)
and `None` returned — with the global counter left incremented, exactly as in
the source. -/
def AppData.borrow (s : AppData) (T : Nat) : BorrowOutcome :=
  match lookupEntry s.container T with
  | none => .noneReturned s
  | some e =>
    match e.flag.acquireShared with
    | none => .panicked
    | some f' =>
      if e.cell.tyId = T then
        .success ⟨T, false⟩
          { container := setEntry s.container T { e with flag := f' },
            borrowCount := s.borrowCount + 1 }
      else
        .noneReturned { container := s.container, borrowCount := s.borrowCount + 1 }

/-- `AppData::borrow_mut` (types.rs lines 375-389): as `borrow`, with an
exclusive `RefCell` borrow and `RefMut::filter_map`. -/
def AppData.borrowMut (s : AppData) (T : Nat) : BorrowOutcome :=
  match lookupEntry s.container T with
  | none => .noneReturned s
  | some e =>
    match e.flag.acquireMut with
    | none => .panicked
    | some f' =>
      if e.cell.tyId = T then
        .success ⟨T, true⟩
          { container := setEntry s.container T { e with flag := f' },
            borrowCount := s.borrowCount + 1 }
      else
        .noneReturned { container := s.container, borrowCount := s.borrowCount + 1 }

/-- Dropping a guard (`impl Drop for AppDataRef`, types.rs lines 415-419, and
`impl Drop for AppDataRefMut`, lines 451-455): the global counter is
decremented, and the inner `Ref`/`RefMut` releases the entry's borrow flag. -/
def AppData.dropGuard (s : AppData) (g : Guard) : AppData :=
  { container :=
      match lookupEntry s.container g.tyId with
      | none => s.container
      | some e =>
        setEntry s.container g.tyId
          { e with flag := if g.isMut then .free else e.flag.releaseShared },
    borrowCount := s.borrowCount - 1 }

/-- The container invariant established by the writers: every stored box's
runtime type id equals its key. -/
def WellTyped (s : AppData) : Prop :=
  ∀ p ∈ s.container, (Prod.snd p).cell.tyId = Prod.fst p

/-- A container state together with the multiset of live guards. -/
structure AppWorld where
  state : AppData
  guards : List Guard
deriving DecidableEq, Repr

def appInit : AppWorld := ⟨⟨[], 0⟩, []⟩

/-- One API-level step on the app data container: an insertion (covering
`insert`, which delegates to `try_insert`), a removal, a (shared or mutable)
borrow returning a guard or `None`, or the drop of one live guard. -/
inductive AppStep : AppWorld → AppWorld → Prop where
  | tryInsertStep (w : AppWorld) (T v : Nat) (old : Option Nat) (s' : AppData) :
      w.state.tryInsert T v = .ok (old, s') → AppStep w ⟨s', w.guards⟩
  | removeStep (w : AppWorld) (T : Nat) (r : Option Nat) (s' : AppData) :
      w.state.remove T = some (r, s') → AppStep w ⟨s', w.guards⟩
  | borrowOkStep (w : AppWorld) (T : Nat) (g : Guard) (s' : AppData) :
      w.state.borrow T = .success g s' → AppStep w ⟨s', g :: w.guards⟩
  | borrowNoneStep (w : AppWorld) (T : Nat) (s' : AppData) :
      w.state.borrow T = .noneReturned s' → AppStep w ⟨s', w.guards⟩
  | borrowMutOkStep (w : AppWorld) (T : Nat) (g : Guard) (s' : AppData) :
      w.state.borrowMut T = .success g s' → AppStep w ⟨s', g :: w.guards⟩
  | borrowMutNoneStep (w : AppWorld) (T : Nat) (s' : AppData) :
      w.state.borrowMut T = .noneReturned s' → AppStep w ⟨s', w.guards⟩
  | dropGuardStep (w : AppWorld) (g : Guard) (pre post : List Guard) :
      w.guards = pre ++ g :: post → AppStep w ⟨w.state.dropGuard g, pre ++ post⟩

def AppReachable (w : AppWorld) : Prop :=
  Relation.ReflTransGen AppStep appInit w

end Mlua

namespace Mlua

/-! ## Supporting lemmas for the app data container -/

theorem lookupEntry_mem {m : List (Nat × Entry)} {T : Nat} {e : Entry}
    (h : lookupEntry m T = some e) : (T, e) ∈ m := by
  induction m with
  | nil => simp [lookupEntry] at h
  | cons p rest ih =>
    obtain ⟨k, e'⟩ := p
    by_cases hk : k = T
    · subst hk
      simp [lookupEntry] at h
      subst h
      exact List.mem_cons_self _ _
    · simp [lookupEntry, hk] at h
      exact List.mem_cons_of_mem _ (ih h)

theorem mem_setEntry {m : List (Nat × Entry)} {k : Nat} {e : Entry} {p : Nat × Entry}
    (h : p ∈ setEntry m k e) : p = (k, e) ∨ p ∈ m := by
  induction m with
  | nil =>
    simp [setEntry] at h
    exact Or.inl h
  | cons q rest ih =>
    obtain ⟨k', e'⟩ := q
    by_cases hk : k' = k
    · simp [setEntry, hk] at h
      rcases h with h | h
      · exact Or.inl h
      · exact Or.inr (List.mem_cons_of_mem _ h)
    · simp [setEntry, hk] at h
      rcases h with h | h
      · exact Or.inr (by simp [h])
      · rcases ih h with h' | h'
        · exact Or.inl h'
        · exact Or.inr (List.mem_cons_of_mem _ h')

theorem mem_removeEntry {m : List (Nat × Entry)} {k : Nat} {p : Nat × Entry}
    (h : p ∈ removeEntry m k) : p ∈ m := by
  induction m with
  | nil => simp [removeEntry] at h
  | cons q rest ih =>
    obtain ⟨k', e'⟩ := q
    by_cases hk : k' = k
    · simp [removeEntry, hk] at h
      exact List.mem_cons_of_mem _ h
    · simp [removeEntry, hk] at h
      rcases h with h | h
      · simp [h]
      · exact List.mem_cons_of_mem _ (ih h)

theorem lookupEntry_setEntry_self (m : List (Nat × Entry)) (k : Nat) (e : Entry) :
    lookupEntry (setEntry m k e) k = some e := by
  induction m with
  | nil => simp [setEntry, lookupEntry]
  | cons q rest ih =>
    obtain ⟨k', e'⟩ := q
    by_cases hk : k' = k
    · simp [setEntry, hk, lookupEntry]
    · simp [setEntry, hk, lookupEntry, ih]

theorem wellTyped_lookup {s : AppData} {T : Nat} {e : Entry}
    (hwt : WellTyped s) (h : lookupEntry s.container T = some e) :
    e.cell.tyId = T :=
  hwt (T, e) (lookupEntry_mem h)

theorem tryInsert_ok {s : AppData} {T v : Nat} {old : Option Nat} {s' : AppData}
    (h : s.tryInsert T v = .ok (old, s')) :
    s'.borrowCount = s.borrowCount ∧ (WellTyped s → WellTyped s') := by
  unfold AppData.tryInsert at h
  by_cases hb : s.borrowCount ≠ 0
  · simp [hb] at h
  · simp only [hb, if_false, Except.ok.injEq, Prod.mk.injEq] at h
    obtain ⟨-, hs⟩ := h
    subst hs
    refine ⟨rfl, ?_⟩
    intro hwt p hp
    rcases mem_setEntry hp with h' | h'
    · subst h'
      rfl
    · exact hwt p h'

theorem remove_ok {s : AppData} {T : Nat} {r : Option Nat} {s' : AppData}
    (h : s.remove T = some (r, s')) :
    s'.borrowCount = s.borrowCount ∧ (WellTyped s → WellTyped s') := by
  unfold AppData.remove at h
  by_cases hb : s.borrowCount ≠ 0
  · simp [hb] at h
  · simp only [hb, if_false] at h
    cases hl : lookupEntry s.container T with
    | none =>
      simp [hl] at h
      obtain ⟨-, hs⟩ := h
      subst hs
      exact ⟨rfl, fun hwt => hwt⟩
    | some e =>
      simp only [hl, Option.some.injEq, Prod.mk.injEq] at h
      obtain ⟨-, hs⟩ := h
      subst hs
      refine ⟨rfl, ?_⟩
      intro hwt p hp
      exact hwt p (mem_removeEntry hp)

theorem borrow_success {s : AppData} {T : Nat} {g : Guard} {s' : AppData}
    (h : s.borrow T = .success g s') :
    s'.borrowCount = s.borrowCount + 1 ∧ (WellTyped s → WellTyped s') := by
  unfold AppData.borrow at h
  cases hl : lookupEntry s.container T with
  | none => simp [hl] at h
  | some e =>
    cases hf : e.flag.acquireShared with
    | none => simp [hl, hf] at h
    | some f' =>
      by_cases hty : e.cell.tyId = T
      · simp only [hl, hf, hty, if_true, BorrowOutcome.success.injEq] at h
        obtain ⟨-, hs⟩ := h
        subst hs
        refine ⟨rfl, ?_⟩
        intro hwt p hp
        rcases mem_setEntry hp with h' | h'
        · subst h'
          exact hty
        · exact hwt p h'
      · simp [hl, hf, hty] at h

theorem borrowMut_success {s : AppData} {T : Nat} {g : Guard} {s' : AppData}
    (h : s.borrowMut T = .success g s') :
    s'.borrowCount = s.borrowCount + 1 ∧ (WellTyped s → WellTyped s') := by
  unfold AppData.borrowMut at h
  cases hl : lookupEntry s.container T with
  | none => simp [hl] at h
  | some e =>
    cases hf : e.flag.acquireMut with
    | none => simp [hl, hf] at h
    | some f' =>
      by_cases hty : e.cell.tyId = T
      · simp only [hl, hf, hty, if_true, BorrowOutcome.success.injEq] at h
        obtain ⟨-, hs⟩ := h
        subst hs
        refine ⟨rfl, ?_⟩
        intro hwt p hp
        rcases mem_setEntry hp with h' | h'
        · subst h'
          exact hty
        · exact hwt p h'
      · simp [hl, hf, hty] at h

theorem borrow_noneReturned {s : AppData} {T : Nat} {s' : AppData}
    (hwt : WellTyped s) (h : s.borrow T = .noneReturned s') : s' = s := by
  unfold AppData.borrow at h
  cases hl : lookupEntry s.container T with
  | none =>
    simp [hl] at h
    exact h.symm
  | some e =>
    cases hf : e.flag.acquireShared with
    | none => simp [hl, hf] at h
    | some f' =>
      have hty : e.cell.tyId = T := wellTyped_lookup hwt hl
      simp [hl, hf, hty] at h

theorem borrowMut_noneReturned {s : AppData} {T : Nat} {s' : AppData}
    (hwt : WellTyped s) (h : s.borrowMut T = .noneReturned s') : s' = s := by
  unfold AppData.borrowMut at h
  cases hl : lookupEntry s.container T with
  | none =>
    simp [hl] at h
    exact h.symm
  | some e =>
    cases hf : e.flag.acquireMut with
    | none => simp [hl, hf] at h
    | some f' =>
      have hty : e.cell.tyId = T := wellTyped_lookup hwt hl
      simp [hl, hf, hty] at h

theorem dropGuard_count (s : AppData) (g : Guard) :
    (s.dropGuard g).borrowCount = s.borrowCount - 1 := rfl

theorem dropGuard_wellTyped {s : AppData} (g : Guard) (hwt : WellTyped s) :
    WellTyped (s.dropGuard g) := by
  intro p hp
  unfold AppData.dropGuard at hp
  cases hl : lookupEntry s.container g.tyId with
  | none =>
    simp only [hl] at hp
    exact hwt p hp
  | some e =>
    simp only [hl] at hp
    rcases mem_setEntry hp with h' | h'
    · subst h'
      have hty : e.cell.tyId = g.tyId := wellTyped_lookup hwt hl
      exact hty
    · exact hwt p h'

/-- The combined invariant: the container is well typed and the global borrow
counter equals the number of live guards. -/
def AppInv (w : AppWorld) : Prop :=
  WellTyped w.state ∧ w.state.borrowCount = w.guards.length

theorem appStep_preserves {w w' : AppWorld} (h : AppStep w w') (hinv : AppInv w) :
    AppInv w' := by
  obtain ⟨hwt, hcnt⟩ := hinv
  cases h with
  | tryInsertStep T v old s' hop =>
    obtain ⟨hc, hw⟩ := tryInsert_ok hop
    exact ⟨hw hwt, hc.trans hcnt⟩
  | removeStep T r s' hop =>
    obtain ⟨hc, hw⟩ := remove_ok hop
    exact ⟨hw hwt, hc.trans hcnt⟩
  | borrowOkStep T g s' hop =>
    obtain ⟨hc, hw⟩ := borrow_success hop
    refine ⟨hw hwt, ?_⟩
    rw [List.length_cons, hc, hcnt]
  | borrowNoneStep T s' hop =>
    have := borrow_noneReturned hwt hop
    subst this
    exact ⟨hwt, hcnt⟩
  | borrowMutOkStep T g s' hop =>
    obtain ⟨hc, hw⟩ := borrowMut_success hop
    refine ⟨hw hwt, ?_⟩
    rw [List.length_cons, hc, hcnt]
  | borrowMutNoneStep T s' hop =>
    have := borrowMut_noneReturned hwt hop
    subst this
    exact ⟨hwt, hcnt⟩
  | dropGuardStep g pre post hg =>
    refine ⟨dropGuard_wellTyped g hwt, ?_⟩
    rw [dropGuard_count, hcnt, hg]
    simp only [List.length_append, List.length_cons]
    omega

theorem appReachable_inv {w : AppWorld} (h : AppReachable w) : AppInv w := by
  induction h with
  | refl =>
    refine ⟨?_, rfl⟩
    intro p hp
    simp [appInit] at hp
  | tail hstep hprev ih =>
    exact appStep_preserves hprev ih

/-! ## Scope destructors (`src/scope.rs`)

`Destructors` (scope.rs line 30) is an ordered list of
`(ValueRef, DestructorCallback)` pairs.  For the drop-ordering analysis each
registered destructor is abstracted by what the protocol lets it do: invoking
it performs its engine-side invalidation step and returns some number of
deferred thunks.  The drop of the whole list is modelled as the trace of
events it emits. -/

inductive ScopeEvent where
  /-- destructor number `i` completed its engine-side invalidation step. -/
  | invalidated (i : Nat)
  /-- deferred thunk number `j` returned by destructor `i` was executed. -/
  | thunkRun (i : Nat) (j : Nat)
deriving DecidableEq, Repr

structure RegisteredDestructor where
  thunkCount : Nat
deriving DecidableEq, Repr

/-- Invoking destructor number `i` (`destructor(&lua, vref)` in scope.rs line
267): its engine-side invalidation event, paired with the deferred thunks it
returns (running thunk `j` later emits `thunkRun i j`). -/
def invokeDestructor (i : Nat) (d : RegisteredDestructor) :
    ScopeEvent × List ScopeEvent :=
  (.invalidated i, (List.range d.thunkCount).map fun j => .thunkRun i j)

/-- The `flat_map(...).collect()` pass of `Destructors::drop` (scope.rs lines
265-268): destructors are invoked one by one in registration order —
invalidation happens immediately, each returned thunk list is appended to the
`to_drop` vector.  Returns (events emitted, thunks collected). -/
def drainDestructors : Nat → List RegisteredDestructor → List ScopeEvent × List ScopeEvent
  | _, [] => ([], [])
  | i, d :: rest =>
    let r := invokeDestructor i d
    let tail := drainDestructors (i + 1) rest
    (r.1 :: tail.1, r.2 ++ tail.2)

/-- `impl Drop for Destructors` (scope.rs lines 256-273): with no registered
destructors nothing happens (no engine lock is even taken); otherwise phase
one drains every destructor collecting the thunks, and only then does
`drop(to_drop)` execute the collected thunks, front to back. -/
def destructorsDrop : List RegisteredDestructor → List ScopeEvent
  | [] => []
  | d :: rest =>
    (drainDestructors 0 (d :: rest)).1 ++ (drainDestructors 0 (d :: rest)).2

/-! ### The concrete destructors registered by the scope's operations

What each destructor does once engine access is attempted is decided by one
observable: whether `push_userdata_ref` for the registered object still
succeeds (`udAccessible`). -/

/-- A deferred host-side drop action returned by a destructor. -/
inductive DeferredThunk where
  | dropStorage
  | dropUpvalueData
deriving DecidableEq, Repr

/-- What a destructor can observe about the engine for one registered object. -/
structure DestructorEnv where
  /-- whether `rawlua.push_userdata_ref(&vref)` succeeds. -/
  udAccessible : Bool
deriving DecidableEq, Repr

/-- The destructor registered by `Scope::seal_userdata` (scope.rs lines
236-253): if the userdata cannot be pushed it returns no thunks; otherwise it
takes the storage out and defers its drop. -/
def sealUserdataDestructor (env : DestructorEnv) : List DeferredThunk :=
  if env.udAccessible then [.dropStorage] else []

/-- The destructor registered by `Scope::create_userdata` (scope.rs lines
194-211): same accessibility check; additionally deregisters the per-instance
metatable (engine-side, not a thunk) before taking the storage. -/
def createUserdataDestructor (env : DestructorEnv) : List DeferredThunk :=
  if env.udAccessible then [.dropStorage] else []

/-- The destructor registered by `Scope::create_callback` (scope.rs lines
222-229): reads the callback upvalue on the ref thread and takes its data out
— with no accessibility check of any kind — and always returns exactly one
deferred thunk dropping that data. -/
def createCallbackDestructor (_env : DestructorEnv) : List DeferredThunk :=
  [.dropUpvalueData]

/-- The callback produced by `Scope::create_function_mut` (scope.rs lines
64-74): the user's `FnMut` closure is wrapped in a `RefCell`, and each
invocation runs `try_borrow_mut`, mapping failure to
`Error::RecursiveMutCallback`.  `executing` is whether the cell is currently
mutably borrowed, i.e. whether an invocation of this same closure is on the
call stack; on success the body runs with the borrow held, so any re-entrant
invocation it triggers sees `executing = true`. -/
def createFunctionMutCall {A R : Type} (body : Bool → A → Except Error R)
    (executing : Bool) (args : A) : Except Error R :=
  if executing then .error .RecursiveMutCallback else body true args

end Mlua

namespace Mlua

/-! ## Supporting lemmas for the destructor trace -/

theorem drainDestructors_fst (i : Nat) (ds : List RegisteredDestructor) :
    (drainDestructors i ds).1 =
      (List.range ds.length).map fun j => ScopeEvent.invalidated (i + j) := by
  induction ds generalizing i with
  | nil => simp [drainDestructors]
  | cons d rest ih =>
    show ScopeEvent.invalidated i :: (drainDestructors (i + 1) rest).1 = _
    rw [ih (i + 1), List.length_cons, List.range_succ_eq_map, List.map_cons,
      List.map_map]
    have harg : (fun j => ScopeEvent.invalidated (i + 1 + j)) =
        (fun j => ScopeEvent.invalidated (i + j)) ∘ Nat.succ := by
      funext j
      show ScopeEvent.invalidated (i + 1 + j) = ScopeEvent.invalidated (i + (j + 1))
      congr 1
      omega
    rw [harg]
    simp

theorem drainDestructors_snd (i : Nat) (ds : List RegisteredDestructor) :
    ∀ e ∈ (drainDestructors i ds).2, ∃ a b, e = ScopeEvent.thunkRun a b := by
  induction ds generalizing i with
  | nil =>
    intro e he
    simp [drainDestructors] at he
  | cons d rest ih =>
    intro e he
    have : e ∈ (invokeDestructor i d).2 ++ (drainDestructors (i + 1) rest).2 := he
    rcases List.mem_append.mp this with h | h
    · simp only [invokeDestructor, List.mem_map] at h
      obtain ⟨j, -, hj⟩ := h
      exact ⟨i, j, hj.symm⟩
    · exact ih (i + 1) e h

end Mlua

namespace Mlua

/-! ## Theorems about registry keys and value references -/

/-- C8: two registry keys compare equal iff their ids match and their pending
lists are the same object; distinct pending-list identities (distinct
interpreter instances) force inequality even on matching numeric ids. -/
theorem registryKey_eq_same_list (a b : RegistryKey) :
    (RegistryKey.eq a b = true ↔ a.registryId = b.registryId ∧ a.unrefList = b.unrefList) ∧
    (a.unrefList ≠ b.unrefList → RegistryKey.eq a b = false) := by
  constructor
  · simp [RegistryKey.eq]
  · intro h
    simp [RegistryKey.eq, h]

theorem registryKey_eq_same_list_w :
    (0 : Nat) ≠ (1 : Nat) ∧ RegistryKey.eq ⟨0, 0⟩ ⟨0, 1⟩ = false :=
  ⟨by decide, (registryKey_eq_same_list ⟨0, 0⟩ ⟨0, 1⟩).2 (by decide)⟩

/-- C7: `take` returns the key's id and leaves every pending list untouched
(the drop path never runs), so an id not already pending never shows up among
the ids a later sweep frees. -/
theorem registryKey_take_detaches (store : UnrefStore) (k : RegistryKey) (l : List Int)
    (hl : store k.unrefList = some l) (hmem : k.registryId ∉ l) :
    (RegistryKey.take store k).1 = k.registryId ∧
    (RegistryKey.take store k).2 = store ∧
    k.registryId ∉ (registrySweep (RegistryKey.take store k).2 k.unrefList).1 := by
  refine ⟨rfl, rfl, ?_⟩
  simp [RegistryKey.take, registrySweep, hl, hmem]

theorem registryKey_take_detaches_w :
    ((fun _ => some ([] : List Int)) : UnrefStore) (RegistryKey.unrefList ⟨5, 0⟩) = some [] ∧
    (5 : Int) ∉ ([] : List Int) ∧
    (5 : Int) ∉
      (registrySweep (RegistryKey.take (fun _ => some []) ⟨5, 0⟩).2
        (RegistryKey.unrefList ⟨5, 0⟩)).1 :=
  ⟨rfl, by decide,
    (registryKey_take_detaches (fun _ => some []) ⟨5, 0⟩ [] rfl (by decide)).2.2⟩

/-- C6 counterexample: dropping a (non-taken) key whose id is `LUA_REFNIL`
(the nil slot, id -1) does not append its id to the pending list: the list
stays empty and a later sweep does not free that id. -/
theorem registryKey_drop_nil_slot_skipped :
    registryKeyDrop (fun _ => some []) ⟨-1, 0⟩ 0 = some [] ∧
    (-1 : Int) ∉ (registrySweep (registryKeyDrop (fun _ => some []) ⟨-1, 0⟩) 0).1 := by
  constructor
  · simp [registryKeyDrop, LUA_REFNIL]
  · simp [registryKeyDrop, registrySweep, LUA_REFNIL]

/-- C6 (amended): dropping a non-taken key never frees its slot synchronously;
whenever its id exceeds `LUA_REFNIL` and the shared pending list is still
present, the id is appended to that pending list, and a later sweep frees
exactly the pending ids — in particular exactly this id when the list was
empty.  Ids ≤ `LUA_REFNIL` are not enqueued. -/
theorem registryKey_drop_enqueues (store : UnrefStore) (k : RegistryKey) (l : List Int)
    (hid : LUA_REFNIL < k.registryId) (hl : store k.unrefList = some l) :
    registryKeyDrop store k k.unrefList = some (l ++ [k.registryId]) ∧
    (registrySweep (registryKeyDrop store k) k.unrefList).1 = l ++ [k.registryId] ∧
    (l = [] → (registrySweep (registryKeyDrop store k) k.unrefList).1 = [k.registryId]) := by
  have hdrop : registryKeyDrop store k k.unrefList = some (l ++ [k.registryId]) := by
    simp [registryKeyDrop, hid, hl, UnrefStore.set]
  refine ⟨hdrop, ?_, ?_⟩
  · simp [registrySweep, hdrop]
  · intro hnil
    subst hnil
    simp [registrySweep, hdrop]

theorem registryKey_drop_enqueues_w :
    LUA_REFNIL < (7 : Int) ∧
    ((fun _ => some ([] : List Int)) : UnrefStore) (RegistryKey.unrefList ⟨7, 0⟩) = some [] ∧
    (registrySweep (registryKeyDrop (fun _ => some []) ⟨7, 0⟩)
      (RegistryKey.unrefList ⟨7, 0⟩)).1 = [7] :=
  ⟨by decide, rfl,
    (registryKey_drop_enqueues (fun _ => some []) ⟨7, 0⟩ [] (by decide) rfl).2.2 rfl⟩

/-- C9: dropping a value reference frees its slot in the reference area iff
its drop flag is set and the engine is still alive; a reference with the flag
cleared, or whose engine is gone, never frees anything. -/
theorem valueRef_drop_flag_gates (es : Engines) (v : ValueRef) :
    (v.drop = false → valueRefDrop es v = es) ∧
    (v.drop = true → es v.lua.engineId = none → valueRefDrop es v = es) ∧
    (∀ t, v.drop = true → es v.lua.engineId = some t →
      ∃ t', valueRefDrop es v v.lua.engineId = some t' ∧
        t'.occupied v.index = false ∧
        ∀ j, j ≠ v.index → t'.occupied j = t.occupied j) := by
  refine ⟨?_, ?_, ?_⟩
  · intro h
    simp [valueRefDrop, h]
  · intro h hdead
    simp [valueRefDrop, h, hdead]
  · intro t h halive
    refine ⟨dropRef t v.index, ?_, ?_, ?_⟩
    · simp [valueRefDrop, h, halive]
    · simp [dropRef]
    · intro j hj
      simp [dropRef, hj]

theorem valueRef_drop_flag_gates_w :
    ValueRef.drop ⟨⟨0⟩, 3, false⟩ = false ∧
    valueRefDrop (fun _ => none) ⟨⟨0⟩, 3, false⟩ = (fun _ => none) :=
  ⟨rfl, (valueRef_drop_flag_gates (fun _ => none) ⟨⟨0⟩, 3, false⟩).1 rfl⟩

/-- C5: comparing two value references from different engine instances fails
loudly (the assertion panics, modelled by `none`) and never returns a boolean;
a boolean result arises only when both references belong to the same engine,
and then it is the raw comparison of the two slots' contents. -/
theorem valueRef_eq_cross_engine_panics (es : Engines) (a b : ValueRef) :
    (a.lua ≠ b.lua → ValueRef.eq es a b = none) ∧
    (∀ r, ValueRef.eq es a b = some r →
      a.lua = b.lua ∧ ∃ t, es a.lua.engineId = some t ∧ r = rawequal t a.index b.index) := by
  constructor
  · intro h
    simp [ValueRef.eq, h]
  · intro r hr
    by_cases h : a.lua = b.lua
    · refine ⟨h, ?_⟩
      simp only [ValueRef.eq, if_pos h] at hr
      cases hes : es a.lua.engineId with
      | none => simp [hes] at hr
      | some t =>
        refine ⟨t, rfl, ?_⟩
        simp [hes] at hr
        exact hr.symm
    · simp [ValueRef.eq, h] at hr

theorem valueRef_eq_cross_engine_panics_w :
    WeakLua.mk 0 ≠ WeakLua.mk 1 ∧
    ValueRef.eq (fun _ => none) ⟨⟨0⟩, 1, true⟩ ⟨⟨1⟩, 1, true⟩ = none :=
  ⟨by decide,
    (valueRef_eq_cross_engine_panics (fun _ => none) ⟨⟨0⟩, 1, true⟩ ⟨⟨1⟩, 1, true⟩).1
      (by decide)⟩

/-! ## Theorems about the app data container -/

/-- C4: with a nonzero outstanding-borrow count, `try_insert` hands the
offered value back unchanged without panicking while `insert` and `remove`
panic; with a zero borrow count, `insert` and `try_insert` succeed and store
the value under its type key. -/
theorem appData_insert_gate (s : AppData) (T v : Nat) :
    (s.borrowCount ≠ 0 →
      s.tryInsert T v = .error v ∧ s.insert T v = none ∧ s.remove T = none) ∧
    (s.borrowCount = 0 →
      ∃ old s₁, s.tryInsert T v = .ok (old, s₁) ∧ s.insert T v = some (old, s₁) ∧
        lookupEntry s₁.container T = some ⟨⟨T, v⟩, .free⟩) := by
  constructor
  · intro hb
    refine ⟨?_, ?_, ?_⟩
    · simp [AppData.tryInsert, hb]
    · simp [AppData.insert, AppData.tryInsert, hb]
    · simp [AppData.remove, hb]
  · intro hb
    refine ⟨(lookupEntry s.container T).bind fun e =>
        if e.cell.tyId = T then some e.cell.payload else none,
      ⟨setEntry s.container T ⟨⟨T, v⟩, .free⟩, s.borrowCount⟩, ?_, ?_, ?_⟩
    · simp [AppData.tryInsert, hb]
    · simp [AppData.insert, AppData.tryInsert, hb]
    · exact lookupEntry_setEntry_self s.container T ⟨⟨T, v⟩, .free⟩

theorem appData_insert_gate_w :
    (AppData.borrowCount ⟨[], 1⟩ ≠ 0 ∧ AppData.tryInsert ⟨[], 1⟩ 5 7 = .error 7) ∧
    (AppData.borrowCount ⟨[], 0⟩ = 0 ∧
      ∃ old s₁, AppData.tryInsert ⟨[], 0⟩ 5 7 = .ok (old, s₁) ∧
        AppData.insert ⟨[], 0⟩ 5 7 = some (old, s₁) ∧
        lookupEntry s₁.container 5 = some ⟨⟨5, 7⟩, .free⟩) :=
  ⟨⟨by decide, ((appData_insert_gate ⟨[], 1⟩ 5 7).1 (by decide)).1⟩,
   ⟨rfl, (appData_insert_gate ⟨[], 0⟩ 5 7).2 rfl⟩⟩

/-- C10: the app data container's global borrow counter always equals the
number of live borrow guards: the equality holds in every world reachable
through the container's API; every `borrow` / `borrow_mut` call that returns
a guard increments the counter by exactly one; in a reachable world a call
that returns `None` leaves the whole state (hence the counter) unchanged; and
dropping a live guard decrements the counter by exactly one. -/
theorem appData_counter_eq_live_guards :
    (∀ w, AppReachable w → w.state.borrowCount = w.guards.length) ∧
    (∀ (s : AppData) (T : Nat) (g : Guard) (s₁ : AppData),
      s.borrow T = .success g s₁ → s₁.borrowCount = s.borrowCount + 1) ∧
    (∀ (s : AppData) (T : Nat) (g : Guard) (s₁ : AppData),
      s.borrowMut T = .success g s₁ → s₁.borrowCount = s.borrowCount + 1) ∧
    (∀ w, AppReachable w → ∀ (T : Nat) (s₁ : AppData),
      w.state.borrow T = .noneReturned s₁ → s₁ = w.state) ∧
    (∀ w, AppReachable w → ∀ (T : Nat) (s₁ : AppData),
      w.state.borrowMut T = .noneReturned s₁ → s₁ = w.state) ∧
    (∀ (s : AppData) (g : Guard), 0 < s.borrowCount →
      (s.dropGuard g).borrowCount + 1 = s.borrowCount) := by
  refine ⟨fun w h => (appReachable_inv h).2,
    fun s T g s₁ h => (borrow_success h).1,
    fun s T g s₁ h => (borrowMut_success h).1,
    fun w h T s₁ hb => borrow_noneReturned (appReachable_inv h).1 hb,
    fun w h T s₁ hb => borrowMut_noneReturned (appReachable_inv h).1 hb,
    fun s g h => ?_⟩
  rw [dropGuard_count]
  omega

theorem appData_counter_eq_live_guards_w :
    appInit.state.borrowCount = appInit.guards.length ∧
    AppData.borrowCount ⟨[(5, ⟨⟨5, 42⟩, CellFlag.reading 1⟩)], 1⟩ =
      AppData.borrowCount ⟨[(5, ⟨⟨5, 42⟩, CellFlag.free⟩)], 0⟩ + 1 ∧
    (AppData.dropGuard ⟨[(5, ⟨⟨5, 42⟩, CellFlag.reading 1⟩)], 1⟩
        ⟨5, false⟩).borrowCount + 1 =
      AppData.borrowCount ⟨[(5, ⟨⟨5, 42⟩, CellFlag.reading 1⟩)], 1⟩ :=
  ⟨appData_counter_eq_live_guards.1 appInit Relation.ReflTransGen.refl,
   appData_counter_eq_live_guards.2.1 ⟨[(5, ⟨⟨5, 42⟩, CellFlag.free⟩)], 0⟩ 5
     ⟨5, false⟩ ⟨[(5, ⟨⟨5, 42⟩, CellFlag.reading 1⟩)], 1⟩ (by decide),
   appData_counter_eq_live_guards.2.2.2.2.2 ⟨[(5, ⟨⟨5, 42⟩, CellFlag.reading 1⟩)], 1⟩
     ⟨5, false⟩ (by decide)⟩

/-! ## Theorems about scope teardown -/

/-- C1: ending a scope first runs every registered destructor's engine-side
invalidation step, in registration order (`invalidated 0, …, invalidated
(n-1)` are exactly the first `n` trace events), and everything after them in
the trace is the execution of a collected deferred thunk — so no deferred
drop runs before all invalidation steps have completed. -/
theorem scope_invalidation_precedes_drops (ds : List RegisteredDestructor) :
    (destructorsDrop ds).take ds.length =
      (List.range ds.length).map ScopeEvent.invalidated ∧
    ∀ e ∈ (destructorsDrop ds).drop ds.length, ∃ a b, e = ScopeEvent.thunkRun a b := by
  cases ds with
  | nil => simp [destructorsDrop]
  | cons d rest =>
    have hfst := drainDestructors_fst 0 (d :: rest)
    have hlen : (drainDestructors 0 (d :: rest)).1.length = (d :: rest).length := by
      rw [hfst]
      simp
    constructor
    · show ((drainDestructors 0 (d :: rest)).1 ++
          (drainDestructors 0 (d :: rest)).2).take (d :: rest).length = _
      rw [← hlen, List.take_left, hfst]
      simp
    · intro e he
      have : e ∈ ((drainDestructors 0 (d :: rest)).1 ++
          (drainDestructors 0 (d :: rest)).2).drop (d :: rest).length := he
      rw [← hlen, List.drop_left] at this
      exact drainDestructors_snd 0 (d :: rest) e this

/-- C2: invoking the function produced by `create_function_mut` while the
wrapped closure is already executing (its `RefCell` mutably borrowed) returns
the distinct `Error.RecursiveMutCallback` without consulting the closure at
all (the result is independent of the closure body, so it is never aliased);
the call is total, so it cannot deadlock; a directly self-re-entrant
invocation terminates with the inner call's `RecursiveMutCallback`; and an
ordinary (non-re-entrant) invocation runs the body exactly once with the
borrow held. -/
theorem create_function_mut_reentrant {A R : Type}
    (body : Bool → A → Except Error R) (args : A) :
    createFunctionMutCall body true args = .error .RecursiveMutCallback ∧
    (∀ other : Bool → A → Except Error R,
      createFunctionMutCall body true args = createFunctionMutCall other true args) ∧
    createFunctionMutCall
        (fun executing a => createFunctionMutCall body executing a) false args
      = .error .RecursiveMutCallback ∧
    createFunctionMutCall body false args = body true args :=
  ⟨rfl, fun _ => rfl, rfl, rfl⟩

/-- C3 counterexample: the destructor registered by `Scope::create_callback`
performs no accessibility check — even in a state where engine access to the
registered object cannot be obtained it returns one deferred thunk, not an
empty list. -/
theorem scope_callback_destructor_thunk_always :
    createCallbackDestructor ⟨false⟩ = [DeferredThunk.dropUpvalueData] ∧
    createCallbackDestructor ⟨false⟩ ≠ [] :=
  ⟨rfl, by decide⟩

/-- C3 (amended): when engine access to the registered object cannot be
obtained at scope end, the userdata destructors — the seal destructor of
`seal_userdata` and the owned-userdata destructor of `create_userdata` —
return an empty list of deferred thunks and do not panic; the callback
destructor of `create_callback`, however, performs no accessibility check and
always returns exactly one deferred thunk (dropping the taken upvalue data). -/
theorem scope_destructor_inaccessible (env : DestructorEnv)
    (h : env.udAccessible = false) :
    sealUserdataDestructor env = [] ∧
    createUserdataDestructor env = [] ∧
    createCallbackDestructor env = [DeferredThunk.dropUpvalueData] := by
  refine ⟨?_, ?_, rfl⟩ <;>
    simp [sealUserdataDestructor, createUserdataDestructor, h]

theorem scope_destructor_inaccessible_w :
    DestructorEnv.udAccessible ⟨false⟩ = false ∧
    sealUserdataDestructor ⟨false⟩ = [] :=
  ⟨rfl, (scope_destructor_inaccessible ⟨false⟩ rfl).1⟩

end Mlua
